import Mathlib

/-!
Verification development for the ECS core of a Piston-style game engine
(src/ecs.rs).  The embedding below translates the Rust module shallowly:

* `usize` is modelled as `Nat`; arithmetic that can overflow is taken
  modulo `2 ^ 64` (the release-build wrapping semantics; a debug build
  would abort at the overflow, and in neither build is the guarded
  "Exceeded maximum entity limit" error raised there).
* `Vec<T>` is modelled as `List T` with its most recently pushed element
  at the HEAD of the list, so `Vec::push` is `cons` and `Vec::pop` takes
  the head.  In particular the top of the `world_state_stack` is the head.
* `HashSet<Entity>` is modelled as a duplicate-free `List Entity`
  (`hsMem` / `hsInsert` / `hsErase` mirror `contains` / `insert` / `remove`).
* `HashMap<K, V>` is modelled as an association list with unique keys;
  `insert` replaces the entry for an existing key in place, `remove`
  deletes it.  Iteration order of a `HashMap` is unspecified, so the list
  order carries no meaning.
* The store registry key `((), TypeId)` is modelled as `TypeId` alone
  (the unit component carries no information), and `TypeId` as `Nat`.
* The type-erased `Box<Store>` with its `mopa` downcast is modelled by
  giving every store the same value type `V` (think of `V` as the sum of
  all component types): `register_comp::<T>` always installs a
  `ComponentStore<T>` under `TypeId::of::<T>`, so the downcast in
  `add_comp` / `get_comp` / `get_comp_mut` always succeeds and the only
  observable failure is the absent registry entry.
* Every panicking path (`expect` / `panic!`) is an `Except.error` with a
  constructor per distinct panic message.
* `get_comp_mut` hands the caller `iter_mut`, through which each yielded
  `(entity, value)` pair may be mutated in place; the whole
  borrow-mutate-release cycle is modelled as applying a caller-chosen
  function `f : Entity → V → V` to every entry of the store.
-/

/-- `struct Entity(pub usize)` — the single positional field `.0` is named `id`. -/
structure Entity where
  id : Nat
deriving DecidableEq, Repr

/-- `std::any::TypeId`, an opaque identifier of a component type. -/
abbrev TypeId := Nat

/-- `usize::MAX` on a 64-bit target. -/
def USIZE_MAX : Nat := 2 ^ 64 - 1

/-- One constructor per distinct panic message in `src/ecs.rs`. -/
inductive EcsError where
  /-- "Error: Attempted to pop empty ecs world state stack" -/
  | popEmptyStack
  /-- "Error: Could not find ecs world state" -/
  | noCurrentState
  /-- "Error: Could not find ecs world state (mut)" -/
  | noCurrentStateMut
  /-- "Error: Exceeded maximum entity limit" -/
  | entityLimit
  /-- "Error: Could not add component to entity; Could not find corresponding registered component type" -/
  | addCompUnregistered
  /-- "Error: Could not find component of given type to retrieve" -/
  | getCompUnregistered
  /-- "Error: Could not find component of given type to retrieve (mut)" -/
  | getCompMutUnregistered
deriving DecidableEq, Repr

instance {ε α : Type} [DecidableEq ε] [DecidableEq α] : DecidableEq (Except ε α) := fun x y =>
  match x, y with
  | .error a, .error b =>
    if h : a = b then isTrue (by rw [h]) else isFalse (by intro hc; cases hc; exact h rfl)
  | .error _, .ok _ => isFalse (by intro hc; cases hc)
  | .ok _, .error _ => isFalse (by intro hc; cases hc)
  | .ok a, .ok b =>
    if h : a = b then isTrue (by rw [h]) else isFalse (by intro hc; cases hc; exact h rfl)

/-- `HashSet::contains`. -/
def hsMem (l : List Entity) (e : Entity) : Bool :=
  match l with
  | [] => false
  | f :: rest => if f = e then true else hsMem rest e

/-- `HashSet::insert` (a set: inserting a present element changes nothing). -/
def hsInsert (l : List Entity) (e : Entity) : List Entity :=
  if hsMem l e then l else e :: l

/-- `HashSet::remove`. -/
def hsErase (l : List Entity) (e : Entity) : List Entity :=
  match l with
  | [] => []
  | f :: rest => if f = e then hsErase rest e else f :: hsErase rest e

/-- `HashMap<Entity, V>` lookup. -/
def storeLookup {V : Type} (e : Entity) : List (Entity × V) → Option V
  | [] => none
  | (f, v) :: rest => if f = e then some v else storeLookup e rest

/-- `HashMap<Entity, V>::insert` — replaces the value of an existing key. -/
def storeInsert {V : Type} (e : Entity) (v : V) : List (Entity × V) → List (Entity × V)
  | [] => [(e, v)]
  | (f, w) :: rest => if f = e then (e, v) :: rest else (f, w) :: storeInsert e v rest

/-- `HashMap<Entity, V>::remove` (keys are unique, so at most one entry is hit). -/
def storeRemove {V : Type} (e : Entity) : List (Entity × V) → List (Entity × V)
  | [] => []
  | (f, w) :: rest => if f = e then storeRemove e rest else (f, w) :: storeRemove e rest

/-- Registry lookup: `components.get(&((), TypeId::of::<T>()))`. -/
def compsLookup {S : Type} (tid : TypeId) : List (TypeId × S) → Option S
  | [] => none
  | (t, s) :: rest => if t = tid then some s else compsLookup tid rest

/-- Registry `insert` — re-registering a type replaces its store. -/
def compsInsert {S : Type} (tid : TypeId) (s : S) : List (TypeId × S) → List (TypeId × S)
  | [] => [(tid, s)]
  | (t, s0) :: rest => if t = tid then (tid, s) :: rest else (t, s0) :: compsInsert tid s rest

/-- `components.get_mut(&((), tid))` followed by mutating the found store in place. -/
def compsUpdate {S : Type} (tid : TypeId) (g : S → S) : List (TypeId × S) → List (TypeId × S)
  | [] => []
  | (t, s) :: rest => if t = tid then (t, g s) :: rest else (t, s) :: compsUpdate tid g rest

/-- `struct ComponentStore<T> { data: HashMap<Entity, T> }`. -/
structure ComponentStore (V : Type) where
  data : List (Entity × V)
deriving DecidableEq, Repr

/-- `ComponentStore::new`. -/
def ComponentStore.new {V : Type} : ComponentStore V := ⟨[]⟩

/-- `ComponentStore::insert`. -/
def ComponentStore.insert {V : Type} (s : ComponentStore V) (e : Entity) (v : V) :
    ComponentStore V := ⟨storeInsert e v s.data⟩

/-- `ComponentStore::iter` — the pairs the store currently holds (order unspecified). -/
def ComponentStore.iter {V : Type} (s : ComponentStore V) : List (Entity × V) := s.data

/-- `ComponentStore::remove`. -/
def ComponentStore.remove {V : Type} (s : ComponentStore V) (e : Entity) :
    ComponentStore V := ⟨storeRemove e s.data⟩

/-- `Store::store_remove` — the type-erased entry point, delegating to `remove`. -/
def ComponentStore.store_remove {V : Type} (s : ComponentStore V) (e : Entity) :
    ComponentStore V := s.remove e

/-- `struct WorldState` with its four fields. -/
structure WorldState (V : Type) where
  current_id : Nat
  reusable_ids : List Nat
  active : List Entity
  components : List (TypeId × ComponentStore V)
deriving DecidableEq, Repr

/-- `WorldState::new`. -/
def WorldState.new {V : Type} : WorldState V :=
  { current_id := 0, reusable_ids := [], active := [], components := [] }

/-- `struct World { world_state_stack: Vec<WorldState> }` (top of stack at the head). -/
structure World (V : Type) where
  world_state_stack : List (WorldState V)
deriving DecidableEq, Repr

/-- `World::new` — the initial stack holds one WorldState built from the same
field literals as `WorldState::new`. -/
def World.new {V : Type} : World V := ⟨[WorldState.new]⟩

/-- Free function `push_state`. -/
def push_state {V : Type} (world : World V) : World V :=
  ⟨WorldState.new :: world.world_state_stack⟩

/-- Free function `pop_state`: `world_state_stack.pop().expect(...)` — the popped
state is discarded; the `expect` fires only when the stack is already empty. -/
def pop_state {V : Type} (world : World V) : Except EcsError (World V) :=
  match world.world_state_stack with
  | [] => .error .popEmptyStack
  | _ :: rest => .ok ⟨rest⟩

/-- Free function `switch_state`: `pop_state` then `push_state`. -/
def switch_state {V : Type} (world : World V) : Except EcsError (World V) :=
  match pop_state world with
  | .error err => .error err
  | .ok w => .ok (push_state w)

/-- `World::contains` (via `current_state`). -/
def World.contains {V : Type} (w : World V) (e : Entity) : Except EcsError Bool :=
  match w.world_state_stack with
  | [] => .error .noCurrentState
  | ws :: _ => .ok (hsMem ws.active e)

/-- `World::iter` (via `current_state`): the active set, order unspecified. -/
def World.iter {V : Type} (w : World V) : Except EcsError (List Entity) :=
  match w.world_state_stack with
  | [] => .error .noCurrentState
  | ws :: _ => .ok ws.active

/-- `World::create`.  Two faithfulness points: the guard
`current_id <= usize::MAX` is always true for a `usize` (the `entityLimit`
branch is dead code), and `Option::unwrap_or` evaluates its argument
EAGERLY, so `reusable_ids.pop()` runs and then `current_id += 1` runs on
every call — the counter is bumped even when a reusable id is taken.  The
increment is taken modulo `2 ^ 64` (wrapping). -/
def World.create {V : Type} (w : World V) : Except EcsError (Entity × World V) :=
  match w.world_state_stack with
  | [] => .error .noCurrentStateMut
  | ws :: rest =>
    if ws.current_id ≤ USIZE_MAX then
      let popped : Option Nat × List Nat :=
        match ws.reusable_ids with
        | [] => (none, [])
        | i :: is => (some i, is)
      let current_id := ws.current_id
      let bumped := (ws.current_id + 1) % 2 ^ 64
      let new_id := popped.1.getD current_id
      let entity : Entity := ⟨new_id⟩
      .ok (entity,
        ⟨{ current_id := bumped
           reusable_ids := popped.2
           active := hsInsert ws.active entity
           components := ws.components } :: rest⟩)
    else .error .entityLimit

/-- `World::register_comp::<T>` — installs an empty store under `T`'s TypeId,
replacing any existing store for that key. -/
def World.register_comp {V : Type} (w : World V) (tid : TypeId) :
    Except EcsError (World V) :=
  match w.world_state_stack with
  | [] => .error .noCurrentStateMut
  | ws :: rest =>
    .ok ⟨{ ws with components := compsInsert tid ComponentStore.new ws.components } :: rest⟩

/-- `World::add_comp::<T>` — looks the store up by TypeId (the downcast always
succeeds, see the module comment) and inserts; missing registration panics.
No check that `e` is active. -/
def World.add_comp {V : Type} (w : World V) (tid : TypeId) (e : Entity) (v : V) :
    Except EcsError (World V) :=
  match w.world_state_stack with
  | [] => .error .noCurrentStateMut
  | ws :: rest =>
    match compsLookup tid ws.components with
    | none => .error .addCompUnregistered
    | some _ =>
      .ok ⟨{ ws with
             components := compsUpdate tid (fun s => s.insert e v) ws.components } :: rest⟩

/-- `World::get_comp::<T>` — the iterator over all `(Entity, T)` pairs of the
store, as the list of pairs it would yield. -/
def World.get_comp {V : Type} (w : World V) (tid : TypeId) :
    Except EcsError (List (Entity × V)) :=
  match w.world_state_stack with
  | [] => .error .noCurrentState
  | ws :: _ =>
    match compsLookup tid ws.components with
    | none => .error .getCompUnregistered
    | some s => .ok s.iter

/-- `World::get_comp_mut::<T>` — the caller receives `iter_mut` and may mutate
each yielded value in place; the cycle is modelled by applying `f` to every
entry.  Entries can be neither inserted nor removed this way. -/
def World.get_comp_mut {V : Type} (w : World V) (tid : TypeId) (f : Entity → V → V) :
    Except EcsError (World V) :=
  match w.world_state_stack with
  | [] => .error .noCurrentStateMut
  | ws :: rest =>
    match compsLookup tid ws.components with
    | none => .error .getCompMutUnregistered
    | some _ =>
      .ok ⟨{ ws with
             components := compsUpdate tid
               (fun s => ⟨s.data.map (fun p => (p.1, f p.1 p.2))⟩) ws.components } :: rest⟩

/-- `World::remove` — active entities get their id recycled, are dropped from
`active`, and `store_remove`d from every registered store; inactive entities
are a silent no-op. -/
def World.remove {V : Type} (w : World V) (e : Entity) : Except EcsError (World V) :=
  match w.world_state_stack with
  | [] => .error .noCurrentStateMut
  | ws :: rest =>
    if hsMem ws.active e then
      .ok ⟨{ current_id := ws.current_id
             reusable_ids := e.id :: ws.reusable_ids
             active := hsErase ws.active e
             components := ws.components.map (fun p => (p.1, p.2.store_remove e)) } :: rest⟩
    else .ok w

/-- Observation: the value entity `e` currently carries for component type
`tid`, read through `get_comp`. -/
def compValue {V : Type} (w : World V) (tid : TypeId) (e : Entity) :
    Except EcsError (Option V) :=
  (w.get_comp tid).map (fun l => storeLookup e l)

/-- Observation: whether an `Except` is a success. -/
def exOk {α : Type} : Except EcsError α → Bool
  | .ok _ => true
  | .error _ => false

/-- Observation: whether an `Except` is the allocator-exhaustion panic
("Error: Exceeded maximum entity limit"). -/
def isEntityLimit {α : Type} : Except EcsError α → Bool
  | .error .entityLimit => true
  | _ => false

/-! ## Invariants (from spec sections 3 and 4.2) -/

/-- Every entry of every store of `comps` belongs to an entity of the set `a`. -/
def compsActive {V : Type} (comps : List (TypeId × ComponentStore V)) (a : List Entity) : Prop :=
  ∀ p ∈ comps, ∀ q ∈ p.2.data, hsMem a q.1 = true

/-- A store holds an entry for an entity only if that entity is active in the
owning WorldState. -/
def StoreActiveInv {V : Type} (ws : WorldState V) : Prop :=
  compsActive ws.components ws.active

/-- `StoreActiveInv` for every WorldState on the stack. -/
def WorldStoreInv {V : Type} (w : World V) : Prop :=
  ∀ ws ∈ w.world_state_stack, StoreActiveInv ws

/-- The entity-allocator invariant of a WorldState: reusable ids are distinct,
disjoint from the active set, and every id ever issued is below `current_id`. -/
def EntityInv {V : Type} (ws : WorldState V) : Prop :=
  ws.reusable_ids.Nodup ∧
  (∀ i ∈ ws.reusable_ids, hsMem ws.active ⟨i⟩ = false) ∧
  (∀ e ∈ ws.active, e.id < ws.current_id) ∧
  (∀ i ∈ ws.reusable_ids, i < ws.current_id)

instance {V : Type} (comps : List (TypeId × ComponentStore V)) (a : List Entity) :
    Decidable (compsActive comps a) := by
  unfold compsActive
  exact inferInstance

instance {V : Type} (ws : WorldState V) : Decidable (StoreActiveInv ws) := by
  unfold StoreActiveInv
  exact inferInstance

instance {V : Type} (w : World V) : Decidable (WorldStoreInv w) := by
  unfold WorldStoreInv
  exact inferInstance

instance {V : Type} (ws : WorldState V) : Decidable (EntityInv ws) := by
  unfold EntityInv
  exact inferInstance

/-! ## Lemmas about the container models -/

theorem hsMem_iff {l : List Entity} {e : Entity} : hsMem l e = true ↔ e ∈ l := by
  induction l with
  | nil => simp [hsMem]
  | cons f rest ih =>
    simp only [hsMem, List.mem_cons]
    by_cases h : f = e
    · subst h; simp
    · have h2 : ¬e = f := fun hc => h hc.symm
      simp [h, h2, ih]

theorem hsMem_hsInsert_self {l : List Entity} {e : Entity} :
    hsMem (hsInsert l e) e = true := by
  unfold hsInsert
  by_cases h : hsMem l e
  · simp [h]
  · simp [h, hsMem]

theorem hsMem_hsInsert_other {l : List Entity} {e f : Entity} (h : f ≠ e) :
    hsMem (hsInsert l e) f = hsMem l f := by
  unfold hsInsert
  have h2 : ¬e = f := fun hc => h hc.symm
  by_cases hm : hsMem l e
  · simp [hm]
  · simp [hm, hsMem, h2]

theorem hsMem_hsInsert_mono {l : List Entity} {e f : Entity}
    (h : hsMem l f = true) : hsMem (hsInsert l e) f = true := by
  by_cases hfe : f = e
  · subst hfe; exact hsMem_hsInsert_self
  · rw [hsMem_hsInsert_other hfe]; exact h

theorem hsMem_hsErase_self {l : List Entity} {e : Entity} :
    hsMem (hsErase l e) e = false := by
  induction l with
  | nil => rfl
  | cons f rest ih =>
    simp only [hsErase]
    by_cases h : f = e
    · simpa [h]
    · simp [h, hsMem, ih]

theorem hsMem_hsErase_other {l : List Entity} {e f : Entity} (h : f ≠ e) :
    hsMem (hsErase l e) f = hsMem l f := by
  induction l with
  | nil => rfl
  | cons g rest ih =>
    simp only [hsErase, hsMem]
    by_cases hg : g = e
    · subst hg
      have h2 : ¬g = f := fun hc => h hc.symm
      simp [h2, ih, hsMem]
    · simp only [if_neg hg, hsMem]
      by_cases hgf : g = f
      · simp [hgf]
      · simp [hgf, ih]

theorem storeLookup_storeInsert_self {V : Type} {l : List (Entity × V)}
    {e : Entity} {v : V} : storeLookup e (storeInsert e v l) = some v := by
  induction l with
  | nil => simp [storeInsert, storeLookup]
  | cons p rest ih =>
    rcases p with ⟨f, w⟩
    simp only [storeInsert]
    by_cases h : f = e
    · simp [h, storeLookup]
    · simp [h, storeLookup, ih]

theorem storeLookup_storeInsert_other {V : Type} {l : List (Entity × V)}
    {e f : Entity} {v : V} (h : f ≠ e) :
    storeLookup f (storeInsert e v l) = storeLookup f l := by
  have h2 : ¬e = f := fun hc => h hc.symm
  induction l with
  | nil => simp [storeInsert, storeLookup, h2]
  | cons p rest ih =>
    rcases p with ⟨g, w⟩
    simp only [storeInsert]
    by_cases hg : g = e
    · subst hg
      simp [storeLookup, h2, ih]
    · simp only [if_neg hg, storeLookup]
      by_cases hgf : g = f
      · simp [hgf]
      · simp [hgf, ih]

theorem storeLookup_storeRemove_self {V : Type} {l : List (Entity × V)}
    {e : Entity} : storeLookup e (storeRemove e l) = none := by
  induction l with
  | nil => rfl
  | cons p rest ih =>
    rcases p with ⟨f, w⟩
    simp only [storeRemove]
    by_cases h : f = e
    · simpa [h]
    · simp [h, storeLookup, ih]

theorem storeLookup_storeRemove_other {V : Type} {l : List (Entity × V)}
    {e f : Entity} (h : f ≠ e) :
    storeLookup f (storeRemove e l) = storeLookup f l := by
  have h2 : ¬e = f := fun hc => h hc.symm
  induction l with
  | nil => rfl
  | cons p rest ih =>
    rcases p with ⟨g, w⟩
    simp only [storeRemove, storeLookup]
    by_cases hg : g = e
    · subst hg
      simp [h2, ih, storeLookup]
    · simp only [if_neg hg, storeLookup]
      by_cases hgf : g = f
      · simp [hgf]
      · simp [hgf, ih]

theorem storeLookup_map_val {V : Type} {l : List (Entity × V)} {e : Entity}
    {f : Entity → V → V} :
    storeLookup e (l.map (fun p => (p.1, f p.1 p.2))) = (storeLookup e l).map (f e) := by
  induction l with
  | nil => rfl
  | cons p rest ih =>
    rcases p with ⟨g, w⟩
    simp only [List.map_cons, storeLookup]
    by_cases hg : g = e
    · subst hg; simp
    · simp [hg, ih]

theorem mem_storeInsert {V : Type} {l : List (Entity × V)} {e : Entity} {v : V}
    {q : Entity × V} (h : q ∈ storeInsert e v l) : q = (e, v) ∨ q ∈ l := by
  induction l with
  | nil =>
    simp only [storeInsert, List.mem_singleton] at h
    exact Or.inl h
  | cons p rest ih =>
    rcases p with ⟨g, w⟩
    by_cases hg : g = e
    · simp only [storeInsert, if_pos hg, List.mem_cons] at h
      rcases h with h | h
      · exact Or.inl h
      · exact Or.inr (List.mem_cons_of_mem _ h)
    · simp only [storeInsert, if_neg hg, List.mem_cons] at h
      rcases h with h | h
      · exact Or.inr (by simp [h])
      · rcases ih h with h2 | h2
        · exact Or.inl h2
        · exact Or.inr (List.mem_cons_of_mem _ h2)

theorem mem_storeRemove {V : Type} {l : List (Entity × V)} {e : Entity}
    {q : Entity × V} (h : q ∈ storeRemove e l) : q ∈ l ∧ q.1 ≠ e := by
  induction l with
  | nil =>
    simp only [storeRemove, List.not_mem_nil] at h
  | cons p rest ih =>
    rcases p with ⟨g, w⟩
    by_cases hg : g = e
    · simp only [storeRemove, if_pos hg] at h
      rcases ih h with ⟨h1, h2⟩
      exact ⟨List.mem_cons_of_mem _ h1, h2⟩
    · simp only [storeRemove, if_neg hg, List.mem_cons] at h
      rcases h with h | h
      · refine ⟨by simp [h], ?_⟩
        rw [h]
        exact hg
      · rcases ih h with ⟨h1, h2⟩
        exact ⟨List.mem_cons_of_mem _ h1, h2⟩

theorem compsLookup_compsInsert_self {S : Type} {l : List (TypeId × S)}
    {tid : TypeId} {s : S} : compsLookup tid (compsInsert tid s l) = some s := by
  induction l with
  | nil => simp [compsInsert, compsLookup]
  | cons p rest ih =>
    rcases p with ⟨t, s0⟩
    simp only [compsInsert]
    by_cases h : t = tid
    · simp [h, compsLookup]
    · simp [h, compsLookup, ih]

theorem compsLookup_compsUpdate_self {S : Type} {l : List (TypeId × S)}
    {tid : TypeId} {g : S → S} :
    compsLookup tid (compsUpdate tid g l) = (compsLookup tid l).map g := by
  induction l with
  | nil => rfl
  | cons p rest ih =>
    rcases p with ⟨t, s⟩
    simp only [compsUpdate, compsLookup]
    by_cases h : t = tid
    · simp [h, compsLookup]
    · simp [h, compsLookup, ih]

theorem compsLookup_compsUpdate_other {S : Type} {l : List (TypeId × S)}
    {tid t2 : TypeId} {g : S → S} (h : t2 ≠ tid) :
    compsLookup t2 (compsUpdate tid g l) = compsLookup t2 l := by
  have h2 : ¬tid = t2 := fun hc => h hc.symm
  induction l with
  | nil => rfl
  | cons p rest ih =>
    rcases p with ⟨t, s⟩
    simp only [compsUpdate, compsLookup]
    by_cases ht : t = tid
    · subst ht
      simp [compsLookup, h2, ih]
    · simp only [if_neg ht, compsLookup]
      by_cases ht2 : t = t2
      · simp [ht2]
      · simp [ht2, ih]

theorem mem_compsInsert {S : Type} {l : List (TypeId × S)} {tid : TypeId} {s : S}
    {p : TypeId × S} (h : p ∈ compsInsert tid s l) : p = (tid, s) ∨ p ∈ l := by
  induction l with
  | nil =>
    simp only [compsInsert, List.mem_singleton] at h
    exact Or.inl h
  | cons q rest ih =>
    rcases q with ⟨t, s0⟩
    by_cases ht : t = tid
    · simp only [compsInsert, if_pos ht, List.mem_cons] at h
      rcases h with h | h
      · exact Or.inl h
      · exact Or.inr (List.mem_cons_of_mem _ h)
    · simp only [compsInsert, if_neg ht, List.mem_cons] at h
      rcases h with h | h
      · exact Or.inr (by simp [h])
      · rcases ih h with h2 | h2
        · exact Or.inl h2
        · exact Or.inr (List.mem_cons_of_mem _ h2)

theorem mem_compsUpdate {S : Type} {l : List (TypeId × S)} {tid : TypeId}
    {g : S → S} {p : TypeId × S} (h : p ∈ compsUpdate tid g l) :
    p ∈ l ∨ ∃ s, (p.1, s) ∈ l ∧ p = (p.1, g s) := by
  induction l with
  | nil =>
    simp only [compsUpdate, List.not_mem_nil] at h
  | cons q rest ih =>
    rcases q with ⟨t, s0⟩
    by_cases ht : t = tid
    · simp only [compsUpdate, if_pos ht, List.mem_cons] at h
      rcases h with h | h
      · refine Or.inr ⟨s0, ?_, ?_⟩
        · rw [h]; exact List.mem_cons_self _ _
        · rw [h]
      · exact Or.inl (List.mem_cons_of_mem _ h)
    · simp only [compsUpdate, if_neg ht, List.mem_cons] at h
      rcases h with h | h
      · exact Or.inl (by simp [h])
      · rcases ih h with h2 | h2
        · exact Or.inl (List.mem_cons_of_mem _ h2)
        · rcases h2 with ⟨s, hs, hp⟩
          exact Or.inr ⟨s, List.mem_cons_of_mem _ hs, hp⟩

theorem compsLookup_map_val {S T : Type} {l : List (TypeId × S)} {tid : TypeId}
    {g : S → T} :
    compsLookup tid (l.map (fun p => (p.1, g p.2))) = (compsLookup tid l).map g := by
  induction l with
  | nil => rfl
  | cons p rest ih =>
    rcases p with ⟨t, s⟩
    simp only [List.map_cons, compsLookup]
    by_cases ht : t = tid
    · simp [ht]
    · simp [ht, ih]

theorem compsActive_mono {V : Type} {c : List (TypeId × ComponentStore V)}
    {a a2 : List Entity} (hsub : ∀ x, hsMem a x = true → hsMem a2 x = true)
    (h : compsActive c a) : compsActive c a2 := by
  intro p hp q hq
  exact hsub _ (h p hp q hq)

theorem compsActive_insertStore {V : Type} {c : List (TypeId × ComponentStore V)}
    {a : List Entity} {tid : TypeId} {e : Entity} {v : V}
    (h : compsActive c a) (he : hsMem a e = true) :
    compsActive (compsUpdate tid (fun s => s.insert e v) c) a := by
  intro p hp q hq
  rcases mem_compsUpdate hp with hp2 | ⟨s, hs, hps⟩
  · exact h p hp2 q hq
  · rw [hps] at hq
    rcases mem_storeInsert hq with hq2 | hq2
    · rw [hq2]
      exact he
    · exact h _ hs q hq2

theorem compsActive_mapVals {V : Type} {c : List (TypeId × ComponentStore V)}
    {a : List Entity} {tid : TypeId} {f : Entity → V → V}
    (h : compsActive c a) :
    compsActive
      (compsUpdate tid (fun s => ⟨s.data.map (fun p => (p.1, f p.1 p.2))⟩) c) a := by
  intro p hp q hq
  rcases mem_compsUpdate hp with hp2 | ⟨s, hs, hps⟩
  · exact h p hp2 q hq
  · rw [hps] at hq
    simp only [List.mem_map] at hq
    rcases hq with ⟨q0, hq0, hq0eq⟩
    have : q.1 = q0.1 := by rw [← hq0eq]
    rw [this]
    exact h _ hs q0 hq0

/-! ## Claim C1 (corrected) -/

/-- Claim C1, counterexample: with the World stack holding exactly one
WorldState (the freshly constructed World), `pop_state` does NOT fail — it
succeeds and leaves the stack empty.  The `expect` inside `pop_state` fires
only when the stack is already empty, exactly as the module's own test
(`test_pop_empty_world_state_stack`) expects: two pops panic on the second. -/
theorem c1_counterexample :
    (World.new (V := Unit)).world_state_stack.length = 1 ∧
    pop_state (World.new (V := Unit)) = .ok ⟨[]⟩ := by
  constructor
  · rfl
  · rfl

/-- Claim C1 amended: `pop_state` is a fatal error exactly when the stack is
already empty; when at least one WorldState is present — including when only
one is — it succeeds, removing and discarding the top (so popping the last
WorldState leaves the stack empty, and the next stack access fails). -/
theorem c1_pop_state_error_iff_empty {V : Type} (w : World V) :
    (w.world_state_stack = [] → pop_state w = .error .popEmptyStack) ∧
    (∀ ws rest, w.world_state_stack = ws :: rest → pop_state w = .ok ⟨rest⟩) := by
  constructor
  · intro h
    simp [pop_state, h]
  · intro ws rest h
    simp [pop_state, h]

/-- Witness for `c1_pop_state_error_iff_empty`, at the two smallest stacks. -/
theorem c1_pop_state_error_iff_empty_witness :
    pop_state (⟨[]⟩ : World Unit) = .error .popEmptyStack ∧
    pop_state (push_state (World.new (V := Unit))) = .ok World.new :=
  ⟨(c1_pop_state_error_iff_empty ⟨[]⟩).1 rfl,
   (c1_pop_state_error_iff_empty (push_state World.new)).2 WorldState.new
     [WorldState.new] rfl⟩

/-! ## Claim C5 (confirmed) -/

/-- Claim C5: immediately after `push_state` every entity is reported inactive
by `contains`; `pop_state` right after `push_state` restores the World exactly
(structurally equal, hence the prior WorldState's entities, component values,
counter and reusable ids are all byte-for-byte intact); and `push_state` only
prepends a fresh empty WorldState, never altering the states beneath. -/
theorem c5_push_then_pop_identity {V : Type} (w : World V) :
    (∀ e, (push_state w).contains e = .ok false) ∧
    pop_state (push_state w) = .ok w ∧
    (push_state w).world_state_stack = WorldState.new :: w.world_state_stack := by
  refine ⟨fun e => rfl, ?_, rfl⟩
  cases w
  rfl

/-! ## Claim C7 (confirmed) -/

/-- Claim C7: removing an entity that is not in the current WorldState's
active set (never created or already removed) is a silent no-op — `remove`
succeeds and returns the World completely unchanged (active set, counter,
reusable ids and every component store included). -/
theorem c7_remove_inactive_noop {V : Type} (w : World V) (ws : WorldState V)
    (rest : List (WorldState V)) (e : Entity)
    (hstack : w.world_state_stack = ws :: rest)
    (h : hsMem ws.active e = false) : w.remove e = .ok w := by
  simp [World.remove, hstack, h]

/-- Witness for `c7_remove_inactive_noop`: removing the never-created id 50
from a fresh World (mirroring `test_remove_inactive`). -/
theorem c7_remove_inactive_noop_witness :
    (World.new (V := Unit)).remove ⟨50⟩ = .ok World.new :=
  c7_remove_inactive_noop World.new WorldState.new [] ⟨50⟩ rfl rfl

/-! ## Claim C8 (confirmed) -/

/-- Claim C8: for a component type never registered in the current WorldState
(no store under its TypeId), `add_comp`, `get_comp` and `get_comp_mut` each
fail fatally, with their respective panic messages. -/
theorem c8_unregistered_fatal {V : Type} (w : World V) (ws : WorldState V)
    (rest : List (WorldState V)) (tid : TypeId)
    (hstack : w.world_state_stack = ws :: rest)
    (hunreg : compsLookup tid ws.components = none) :
    (∀ e v, w.add_comp tid e v = .error .addCompUnregistered) ∧
    w.get_comp tid = .error .getCompUnregistered ∧
    (∀ f, w.get_comp_mut tid f = .error .getCompMutUnregistered) := by
  refine ⟨fun e v => ?_, ?_, fun f => ?_⟩
  · simp [World.add_comp, hstack, hunreg]
  · simp [World.get_comp, hstack, hunreg]
  · simp [World.get_comp_mut, hstack, hunreg]

/-- Witness for `c8_unregistered_fatal`: a fresh World with nothing
registered, TypeId 0 (mirroring the three `*_no_registration` tests). -/
theorem c8_unregistered_fatal_witness :
    (World.new (V := Unit)).add_comp 0 ⟨0⟩ () = .error .addCompUnregistered ∧
    (World.new (V := Unit)).get_comp 0 = .error .getCompUnregistered ∧
    (World.new (V := Unit)).get_comp_mut 0 (fun _ v => v) = .error .getCompMutUnregistered :=
  ⟨(c8_unregistered_fatal World.new WorldState.new [] 0 rfl rfl).1 ⟨0⟩ (),
   (c8_unregistered_fatal World.new WorldState.new [] 0 rfl rfl).2.1,
   (c8_unregistered_fatal World.new WorldState.new [] 0 rfl rfl).2.2 (fun _ v => v)⟩

/-! ## Claim C2 (code_bug) -/

/-- Claim C2 is the intent of the code (the `panic!("Error: Exceeded maximum
entity limit")` branch exists for exactly this case) but the guard
`current_id <= usize::MAX` is vacuously true for a `usize`, so the exhaustion
branch is unreachable: whenever the stack is nonempty, `create` succeeds even
at `current_id = usize::MAX` — the failing input — where instead of the
guarded fatal error the counter increment overflows (modelled as wrapping to
0, so a later fresh allocation can duplicate a live id; a debug build would
abort with an arithmetic overflow, not with the guarded message). -/
theorem c2_exhaustion_guard_dead {V : Type} (w : World V) (ws : WorldState V)
    (rest : List (WorldState V))
    (hstack : w.world_state_stack = ws :: rest)
    (hle : ws.current_id ≤ USIZE_MAX) :
    isEntityLimit w.create = false ∧
    World.create (⟨[⟨USIZE_MAX, [], [], []⟩]⟩ : World Unit) =
      .ok (⟨USIZE_MAX⟩, ⟨[⟨0, [], [⟨USIZE_MAX⟩], []⟩]⟩) := by
  constructor
  · simp [World.create, hstack, hle, isEntityLimit]
  · rfl

/-- Witness for `c2_exhaustion_guard_dead`, evaluated at the failing input
itself: the World whose only WorldState has `current_id = usize::MAX`. -/
theorem c2_exhaustion_guard_dead_witness :
    isEntityLimit (World.create (⟨[⟨USIZE_MAX, [], [], []⟩]⟩ : World Unit)) = false ∧
    World.create (⟨[⟨USIZE_MAX, [], [], []⟩]⟩ : World Unit) =
      .ok (⟨USIZE_MAX⟩, ⟨[⟨0, [], [⟨USIZE_MAX⟩], []⟩]⟩) :=
  c2_exhaustion_guard_dead ⟨[⟨USIZE_MAX, [], [], []⟩]⟩ ⟨USIZE_MAX, [], [], []⟩ []
    rfl (Nat.le_refl USIZE_MAX)

/-! ## Claim C6 (confirmed) -/

/-- Claim C6: with a store `s` registered for `tid` in the current WorldState,
`get_comp` yields exactly the most recently set pairs: after
`add_comp tid e v` the pair for `e` reads back as `v` (a later add for the
same entity overwrites the earlier value) while every other entity's pair is
untouched; after `remove` of an active entity its pair is gone; and a
mutation applied through `get_comp_mut` is visible to the next `get_comp`
(every entry's value is the mutated one). -/
theorem c6_get_comp_recent_pairs {V : Type} (w : World V) (ws : WorldState V)
    (rest : List (WorldState V)) (tid : TypeId) (s : ComponentStore V)
    (hstack : w.world_state_stack = ws :: rest)
    (hreg : compsLookup tid ws.components = some s) :
    (∀ e v w1, w.add_comp tid e v = .ok w1 → compValue w1 tid e = .ok (some v)) ∧
    (∀ e v w1 e2, w.add_comp tid e v = .ok w1 → e2 ≠ e →
      compValue w1 tid e2 = compValue w tid e2) ∧
    (∀ e w1, hsMem ws.active e = true → w.remove e = .ok w1 →
      compValue w1 tid e = .ok none) ∧
    (∀ f w1, w.get_comp_mut tid f = .ok w1 →
      ∀ e, compValue w1 tid e = .ok ((storeLookup e s.data).map (f e))) := by
  refine ⟨?_, ?_, ?_, ?_⟩
  · intro e v w1 hadd
    simp only [World.add_comp, hstack, hreg] at hadd
    rw [Except.ok.injEq] at hadd
    subst hadd
    simp [compValue, World.get_comp, compsLookup_compsUpdate_self, hreg,
      ComponentStore.iter, ComponentStore.insert, Except.map,
      storeLookup_storeInsert_self]
  · intro e v w1 e2 hadd hne
    simp only [World.add_comp, hstack, hreg] at hadd
    rw [Except.ok.injEq] at hadd
    subst hadd
    simp [compValue, World.get_comp, hstack, compsLookup_compsUpdate_self, hreg,
      ComponentStore.iter, ComponentStore.insert, Except.map,
      storeLookup_storeInsert_other hne]
  · intro e w1 hact hrem
    simp only [World.remove, hstack, hact, if_true] at hrem
    rw [Except.ok.injEq] at hrem
    subst hrem
    have hmap := @compsLookup_map_val (ComponentStore V) (ComponentStore V)
      ws.components tid (fun s0 => ⟨storeRemove e s0.data⟩)
    simp only [compValue, World.get_comp, ComponentStore.store_remove,
      ComponentStore.remove]
    rw [hmap, hreg]
    simp [ComponentStore.iter, Except.map, storeLookup_storeRemove_self]
  · intro f w1 hmut
    simp only [World.get_comp_mut, hstack, hreg] at hmut
    rw [Except.ok.injEq] at hmut
    subst hmut
    intro e
    simp [compValue, World.get_comp, compsLookup_compsUpdate_self, hreg,
      ComponentStore.iter, Except.map, storeLookup_map_val]

/-- Witness for `c6_get_comp_recent_pairs`: the single-entity World of
`test_add_comp` / `test_modify_comp` (entity 0 carrying value 6 under
TypeId 0); overwriting with 7 reads back 7, removing entity 0 erases its
pair, and mutating every value to its successor reads back 7. -/
theorem c6_get_comp_recent_pairs_witness :
    compValue (⟨[⟨1, [], [⟨0⟩], [(0, ⟨[(⟨0⟩, 7)]⟩)]⟩]⟩ : World Nat) 0 ⟨0⟩ =
      .ok (some 7) ∧
    compValue (⟨[⟨1, [0], [], [(0, ⟨[]⟩)]⟩]⟩ : World Nat) 0 ⟨0⟩ = .ok none ∧
    compValue (⟨[⟨1, [], [⟨0⟩], [(0, ⟨[(⟨0⟩, 7)]⟩)]⟩]⟩ : World Nat) 0 ⟨0⟩ =
      .ok ((storeLookup ⟨0⟩ [(⟨0⟩, (6 : Nat))]).map (fun x => x + 1)) :=
  ⟨(c6_get_comp_recent_pairs ⟨[⟨1, [], [⟨0⟩], [(0, ⟨[(⟨0⟩, 6)]⟩)]⟩]⟩
      ⟨1, [], [⟨0⟩], [(0, ⟨[(⟨0⟩, 6)]⟩)]⟩ [] 0 ⟨[(⟨0⟩, 6)]⟩ rfl rfl).1 ⟨0⟩ 7
      ⟨[⟨1, [], [⟨0⟩], [(0, ⟨[(⟨0⟩, 7)]⟩)]⟩]⟩ rfl,
   (c6_get_comp_recent_pairs ⟨[⟨1, [], [⟨0⟩], [(0, ⟨[(⟨0⟩, 6)]⟩)]⟩]⟩
      ⟨1, [], [⟨0⟩], [(0, ⟨[(⟨0⟩, 6)]⟩)]⟩ [] 0 ⟨[(⟨0⟩, 6)]⟩ rfl rfl).2.2.1 ⟨0⟩
      ⟨[⟨1, [0], [], [(0, ⟨[]⟩)]⟩]⟩ rfl rfl,
   (c6_get_comp_recent_pairs ⟨[⟨1, [], [⟨0⟩], [(0, ⟨[(⟨0⟩, 6)]⟩)]⟩]⟩
      ⟨1, [], [⟨0⟩], [(0, ⟨[(⟨0⟩, 6)]⟩)]⟩ [] 0 ⟨[(⟨0⟩, 6)]⟩ rfl rfl).2.2.2
      (fun _ x => x + 1) ⟨[⟨1, [], [⟨0⟩], [(0, ⟨[(⟨0⟩, 7)]⟩)]⟩]⟩ (by decide) ⟨0⟩⟩

/-! ## Claim C10 (confirmed) -/

/-- Claim C10: `remove e` touches only entity `e`.  Whether it hits an active
entity or is a no-op, for any other entity `f` the membership of `f` in the
active set and `f`'s looked-up entry in every registered component store are
unchanged, the fresh-id counter is unchanged, and the WorldStates beneath the
top are unchanged. -/
theorem c10_remove_frame {V : Type} (w : World V) (ws : WorldState V)
    (rest : List (WorldState V)) (e f : Entity)
    (hstack : w.world_state_stack = ws :: rest) (hne : f ≠ e) :
    exOk (w.remove e) = true ∧
    (∀ ws1 rest1, w.remove e = .ok ⟨ws1 :: rest1⟩ →
      hsMem ws1.active f = hsMem ws.active f ∧
      ws1.current_id = ws.current_id ∧
      ws1.components.map (fun p => (p.1, storeLookup f p.2.data)) =
        ws.components.map (fun p => (p.1, storeLookup f p.2.data)) ∧
      rest1 = rest) := by
  by_cases hm : hsMem ws.active e
  · constructor
    · simp [World.remove, hstack, hm, exOk]
    · intro ws1 rest1 h
      simp only [World.remove, hstack, hm, if_true] at h
      rw [Except.ok.injEq, World.mk.injEq, List.cons.injEq] at h
      rcases h with ⟨h1, h2⟩
      rw [← h1, ← h2]
      refine ⟨hsMem_hsErase_other hne, rfl, ?_, rfl⟩
      rw [List.map_map]
      refine List.map_congr_left ?_
      intro p _
      simp [Function.comp, ComponentStore.store_remove, ComponentStore.remove,
        storeLookup_storeRemove_other hne]
  · have hm2 : hsMem ws.active e = false := by
      cases h2 : hsMem ws.active e
      · rfl
      · exact absurd h2 hm
    constructor
    · simp [World.remove, hstack, hm2, exOk]
    · intro ws1 rest1 h
      simp only [World.remove, hstack, hm2, Bool.false_eq_true, if_false] at h
      rw [Except.ok.injEq] at h
      have hsame : ws1 :: rest1 = ws :: rest := by
        rw [← hstack, h]
      rw [List.cons.injEq] at hsame
      rcases hsame with ⟨h1, h2⟩
      rw [h1, h2]
      exact ⟨rfl, rfl, rfl, rfl⟩

/-- Witness for `c10_remove_frame`: a two-entity World where entity 0 carries
5 and entity 1 carries 9; removing entity 0 leaves entity 1's activity and
component entry and the counter intact. -/
theorem c10_remove_frame_witness :
    hsMem [⟨1⟩] ⟨1⟩ = hsMem [⟨0⟩, ⟨1⟩] ⟨1⟩ ∧
    (2 : Nat) = 2 ∧
    ([(0, ⟨[(⟨1⟩, 9)]⟩)] : List (TypeId × ComponentStore Nat)).map
        (fun p => (p.1, storeLookup ⟨1⟩ p.2.data)) =
      ([(0, ⟨[(⟨0⟩, 5), (⟨1⟩, 9)]⟩)] : List (TypeId × ComponentStore Nat)).map
        (fun p => (p.1, storeLookup ⟨1⟩ p.2.data)) ∧
    ([] : List (WorldState Nat)) = [] :=
  (c10_remove_frame
      ⟨[⟨2, [], [⟨0⟩, ⟨1⟩], [(0, ⟨[(⟨0⟩, 5), (⟨1⟩, 9)]⟩)]⟩]⟩
      ⟨2, [], [⟨0⟩, ⟨1⟩], [(0, ⟨[(⟨0⟩, 5), (⟨1⟩, 9)]⟩)]⟩ [] ⟨0⟩ ⟨1⟩ rfl
      (by decide)).2
    ⟨2, [0], [⟨1⟩], [(0, ⟨[(⟨1⟩, 9)]⟩)]⟩ [] (by decide)

/-! ## Claim C9 (confirmed) -/

/-- Claim C9: `add_comp` for a registered type does not validate activity, so
a value attached to an inactive entity `e` persists in the store
(`get_comp` already reports it while `contains e` is false), and when a later
`create` hands the same id out again (here: `e.id` is the most recently freed
id) the fresh entity already carries that value without any further
`add_comp`. -/
theorem c9_stale_component_inherited {V : Type} (w : World V) (ws : WorldState V)
    (rest : List (WorldState V)) (tid : TypeId) (s : ComponentStore V)
    (e : Entity) (tl : List Nat) (v : V)
    (hstack : w.world_state_stack = ws :: rest)
    (hreg : compsLookup tid ws.components = some s)
    (hinactive : hsMem ws.active e = false)
    (hreuse : ws.reusable_ids = e.id :: tl)
    (hguard : ws.current_id ≤ USIZE_MAX) :
    exOk (w.add_comp tid e v) = true ∧
    (∀ w1, w.add_comp tid e v = .ok w1 →
      compValue w1 tid e = .ok (some v) ∧
      w1.contains e = .ok false ∧
      exOk w1.create = true ∧
      (∀ e2 w2, w1.create = .ok (e2, w2) →
        e2 = e ∧ w2.contains e = .ok true ∧ compValue w2 tid e = .ok (some v))) := by
  constructor
  · simp [World.add_comp, hstack, hreg, exOk]
  · intro w1 hadd
    simp only [World.add_comp, hstack, hreg] at hadd
    rw [Except.ok.injEq] at hadd
    subst hadd
    refine ⟨?_, ?_, ?_, ?_⟩
    · simp [compValue, World.get_comp, compsLookup_compsUpdate_self, hreg,
        ComponentStore.iter, ComponentStore.insert, Except.map,
        storeLookup_storeInsert_self]
    · simp [World.contains, hinactive]
    · simp [World.create, hguard, hreuse, exOk]
    · intro e2 w2 hcr
      simp only [World.create, hguard, if_true, hreuse] at hcr
      rw [Except.ok.injEq, Prod.mk.injEq] at hcr
      rcases hcr with ⟨he2, hw2⟩
      have he2e : e2 = e := by
        rw [← he2]
        rfl
      subst hw2
      refine ⟨he2e, ?_, ?_⟩
      · simp [World.contains, Option.getD]
        have : (⟨e.id⟩ : Entity) = e := rfl
        rw [this]
        exact hsMem_hsInsert_self
      · simp [compValue, World.get_comp, compsLookup_compsUpdate_self, hreg,
          ComponentStore.iter, ComponentStore.insert, Except.map,
          storeLookup_storeInsert_self]

/-- Witness for `c9_stale_component_inherited`: the World reached by
create-then-remove of entity 0 with a registered store (TypeId 0); adding 42
to the now-inactive entity 0 persists, and the next `create` reuses id 0 and
the new entity already carries 42. -/
theorem c9_stale_component_inherited_witness :
    compValue (⟨[⟨1, [0], [], [(0, ⟨[(⟨0⟩, 42)]⟩)]⟩]⟩ : World Nat) 0 ⟨0⟩ =
      .ok (some 42) ∧
    (⟨[⟨1, [0], [], [(0, ⟨[(⟨0⟩, 42)]⟩)]⟩]⟩ : World Nat).contains ⟨0⟩ = .ok false ∧
    ((⟨[⟨1, [0], [], [(0, ⟨[(⟨0⟩, 42)]⟩)]⟩]⟩ : World Nat).create =
      .ok (⟨0⟩, ⟨[⟨2, [], [⟨0⟩], [(0, ⟨[(⟨0⟩, 42)]⟩)]⟩]⟩)) ∧
    (⟨[⟨2, [], [⟨0⟩], [(0, ⟨[(⟨0⟩, 42)]⟩)]⟩]⟩ : World Nat).contains ⟨0⟩ = .ok true ∧
    compValue (⟨[⟨2, [], [⟨0⟩], [(0, ⟨[(⟨0⟩, 42)]⟩)]⟩]⟩ : World Nat) 0 ⟨0⟩ =
      .ok (some 42) := by
  have h := (c9_stale_component_inherited
      (⟨[⟨1, [0], [], [(0, ⟨[]⟩)]⟩]⟩ : World Nat) ⟨1, [0], [], [(0, ⟨[]⟩)]⟩ []
      0 ⟨[]⟩ ⟨0⟩ [] 42 rfl rfl rfl rfl (by decide)).2
      ⟨[⟨1, [0], [], [(0, ⟨[(⟨0⟩, 42)]⟩)]⟩]⟩ (by decide)
  rcases h with ⟨h1, h2, _, h4⟩
  have h5 := h4 ⟨0⟩ ⟨[⟨2, [], [⟨0⟩], [(0, ⟨[(⟨0⟩, 42)]⟩)]⟩]⟩ (by decide)
  exact ⟨h1, h2, by decide, h5.2.1, h5.2.2⟩

/-! ## Claim C4 (confirmed) -/

/-- Claim C4: under the allocator invariant, `create` succeeds and returns an
entity that was not active before the call and is active afterwards; if any
freed ids exist it takes the most recently freed one (head of the LIFO
`reusable_ids` stack); otherwise it mints the current counter value as the
new id and bumps the counter by exactly one; and the counter of a fresh
WorldState starts at 0.  (The counter is capped below `usize::MAX` here to
stay clear of the dead exhaustion guard settled under C2.) -/
theorem c4_create_fresh_lifo {V : Type} (w : World V) (ws : WorldState V)
    (rest : List (WorldState V))
    (hstack : w.world_state_stack = ws :: rest)
    (hinv : EntityInv ws)
    (hlt : ws.current_id < USIZE_MAX) :
    exOk w.create = true ∧
    (∀ e ws1 rest1, w.create = .ok (e, ⟨ws1 :: rest1⟩) →
      hsMem ws.active e = false ∧
      hsMem ws1.active e = true ∧
      rest1 = rest ∧
      ws1.components = ws.components ∧
      (∀ i tl, ws.reusable_ids = i :: tl → e = ⟨i⟩ ∧ ws1.reusable_ids = tl) ∧
      (ws.reusable_ids = [] → e = ⟨ws.current_id⟩ ∧
        ws1.current_id = ws.current_id + 1)) ∧
    (WorldState.new : WorldState V).current_id = 0 := by
  have hle : ws.current_id ≤ USIZE_MAX := Nat.le_of_lt hlt
  have hmod : (ws.current_id + 1) % 2 ^ 64 = ws.current_id + 1 := by
    apply Nat.mod_eq_of_lt
    have hs := Nat.succ_lt_succ hlt
    have hone : (1 : Nat) ≤ 2 ^ 64 := Nat.one_le_two_pow
    have hcanc : USIZE_MAX + 1 = 2 ^ 64 := Nat.sub_add_cancel hone
    rw [← hcanc]
    exact hs
  refine ⟨?_, ?_, rfl⟩
  · cases hr : ws.reusable_ids with
    | nil => simp [World.create, hstack, hle, hr, exOk]
    | cons i tl => simp [World.create, hstack, hle, hr, exOk]
  · intro e ws1 rest1 hcr
    cases hr : ws.reusable_ids with
    | nil =>
      simp only [World.create, hstack, hle, if_true, hr] at hcr
      rw [Except.ok.injEq, Prod.mk.injEq] at hcr
      rcases hcr with ⟨he, hw⟩
      rw [World.mk.injEq, List.cons.injEq] at hw
      rcases hw with ⟨hws1, hrest1⟩
      have hee : e = ⟨ws.current_id⟩ := by
        rw [← he]
        rfl
      subst hee
      rw [← hws1]
      refine ⟨?_, hsMem_hsInsert_self, hrest1.symm, rfl, ?_, fun _ => ⟨rfl, hmod⟩⟩
      · cases hb : hsMem ws.active ⟨ws.current_id⟩
        · rfl
        · have hmem := hsMem_iff.mp hb
          have := hinv.2.2.1 _ hmem
          exact absurd this (Nat.lt_irrefl _)
      · intro i tl habs
        simp at habs
    | cons i tl =>
      simp only [World.create, hstack, hle, if_true, hr] at hcr
      rw [Except.ok.injEq, Prod.mk.injEq] at hcr
      rcases hcr with ⟨he, hw⟩
      rw [World.mk.injEq, List.cons.injEq] at hw
      rcases hw with ⟨hws1, hrest1⟩
      have hee : e = ⟨i⟩ := by
        rw [← he]
        rfl
      subst hee
      rw [← hws1]
      refine ⟨?_, hsMem_hsInsert_self, hrest1.symm, rfl, ?_, ?_⟩
      · exact hinv.2.1 i (hr ▸ List.mem_cons_self i tl)
      · intro i2 tl2 hcons
        rw [List.cons.injEq] at hcons
        exact ⟨by rw [hcons.1], by rw [hcons.2]⟩
      · intro habs
        simp at habs

/-- Witness for `c4_create_fresh_lifo`: a WorldState with counter 2, freed id
1 and active entity 0 — `create` succeeds, returns the recycled entity 1
(inactive before, active after, freed stack emptied); and a fresh WorldState's
counter is 0. -/
theorem c4_create_fresh_lifo_witness :
    exOk ((⟨[⟨2, [1], [⟨0⟩], []⟩]⟩ : World Unit).create) = true ∧
    hsMem [⟨0⟩] ⟨1⟩ = false ∧
    hsMem [⟨1⟩, ⟨0⟩] ⟨1⟩ = true ∧
    (⟨1⟩ : Entity) = ⟨1⟩ ∧
    ([] : List Nat) = [] ∧
    (WorldState.new : WorldState Unit).current_id = 0 := by
  have h := c4_create_fresh_lifo (⟨[⟨2, [1], [⟨0⟩], []⟩]⟩ : World Unit)
    ⟨2, [1], [⟨0⟩], []⟩ [] rfl (by decide) (by decide)
  have h2 := h.2.1 ⟨1⟩ ⟨3, [], [⟨1⟩, ⟨0⟩], []⟩ [] (by decide)
  have h3 := h2.2.2.2.2.1 1 [] rfl
  exact ⟨h.1, h2.1, h2.2.1, h3.1, h3.2, h.2.2⟩

/-! ## Claim C3 (corrected) -/

theorem compsActive_register {V : Type} {c : List (TypeId × ComponentStore V)}
    {a : List Entity} {tid : TypeId} (h : compsActive c a) :
    compsActive (compsInsert tid ComponentStore.new c) a := by
  intro p hp q hq
  rcases mem_compsInsert hp with hp2 | hp2
  · rw [hp2] at hq
    simp [ComponentStore.new] at hq
  · exact h p hp2 q hq

theorem compsActive_remove {V : Type} {c : List (TypeId × ComponentStore V)}
    {a : List Entity} {e : Entity} (h : compsActive c a) :
    compsActive (c.map (fun p => (p.1, p.2.store_remove e))) (hsErase a e) := by
  intro p hp q hq
  rw [List.mem_map] at hp
  rcases hp with ⟨p0, hp0, hpe⟩
  rw [← hpe] at hq
  have hq2 := mem_storeRemove (show q ∈ storeRemove e p0.2.data from hq)
  rcases hq2 with ⟨hqin, hqne⟩
  rw [hsMem_hsErase_other hqne]
  exact h p0 hp0 q hqin

theorem worldInv_cons {V : Type} {ws1 : WorldState V} {rest : List (WorldState V)}
    (h1 : StoreActiveInv ws1) (h2 : ∀ x ∈ rest, StoreActiveInv x) :
    WorldStoreInv ⟨ws1 :: rest⟩ := by
  intro x hx
  rcases List.mem_cons.mp hx with hx | hx
  · rw [hx]
    exact h1
  · exact h2 x hx

/-- Claim C3, counterexample: the invariant is NOT preserved by every public
operation.  From a fresh World, register TypeId 0 and then `add_comp` value 7
to entity 5 — which was never created and is not active; `add_comp` performs
no activity check, so the resulting (reachable) WorldState has a store entry
for an inactive entity, violating the invariant that stores only hold
entries for active entities. -/
theorem c3_counterexample :
    (World.new (V := Nat)).register_comp 0 = .ok ⟨[⟨0, [], [], [(0, ⟨[]⟩)]⟩]⟩ ∧
    World.add_comp (⟨[⟨0, [], [], [(0, ⟨[]⟩)]⟩]⟩ : World Nat) 0 ⟨5⟩ 7 =
      .ok ⟨[⟨0, [], [], [(0, ⟨[(⟨5⟩, 7)]⟩)]⟩]⟩ ∧
    ¬ WorldStoreInv (⟨[⟨0, [], [], [(0, ⟨[(⟨5⟩, 7)]⟩)]⟩]⟩ : World Nat) := by
  refine ⟨rfl, rfl, ?_⟩
  decide

/-- Claim C3 amended: the stores-only-hold-active-entities invariant is
preserved by `create`, `register_comp`, `remove`, `push_state`, `pop_state`,
`switch_state`, `get_comp_mut`, and by `add_comp` whenever the target entity
is active; `add_comp` on an inactive entity violates it (see the
counterexample), so the invariant holds in every reachable WorldState only
under the discipline that components are attached to active entities. -/
theorem c3_store_active_preservation {V : Type} (w : World V)
    (hinv : WorldStoreInv w) :
    (∀ e w1, w.create = .ok (e, w1) → WorldStoreInv w1) ∧
    (∀ tid w1, w.register_comp tid = .ok w1 → WorldStoreInv w1) ∧
    (∀ e w1, w.remove e = .ok w1 → WorldStoreInv w1) ∧
    WorldStoreInv (push_state w) ∧
    (∀ w1, pop_state w = .ok w1 → WorldStoreInv w1) ∧
    (∀ w1, switch_state w = .ok w1 → WorldStoreInv w1) ∧
    (∀ tid f w1, w.get_comp_mut tid f = .ok w1 → WorldStoreInv w1) ∧
    (∀ tid e v w1 ws rest, w.world_state_stack = ws :: rest →
      hsMem ws.active e = true → w.add_comp tid e v = .ok w1 → WorldStoreInv w1) := by
  have hpop : ∀ w1, pop_state w = .ok w1 → WorldStoreInv w1 := by
    intro w1 h
    cases hs : w.world_state_stack with
    | nil => simp [pop_state, hs] at h
    | cons ws rest =>
      simp only [pop_state, hs] at h
      rw [Except.ok.injEq] at h
      subst h
      intro x hx
      exact hinv x (by rw [hs]; exact List.mem_cons_of_mem _ hx)
  have hpush : ∀ w2 : World V, WorldStoreInv w2 → WorldStoreInv (push_state w2) := by
    intro w2 hinv2
    refine worldInv_cons ?_ hinv2
    intro p hp
    simp [WorldState.new] at hp
  refine ⟨?_, ?_, ?_, hpush w hinv, hpop, ?_, ?_, ?_⟩
  · intro e w1 h
    cases hs : w.world_state_stack with
    | nil => simp [World.create, hs] at h
    | cons ws rest =>
      have htop : StoreActiveInv ws :=
        hinv ws (by rw [hs]; exact List.mem_cons_self _ _)
      have hr2 : ∀ x ∈ rest, StoreActiveInv x := by
        intro x hx
        exact hinv x (by rw [hs]; exact List.mem_cons_of_mem _ hx)
      by_cases hg : ws.current_id ≤ USIZE_MAX
      · cases hrl : ws.reusable_ids with
        | nil =>
          simp only [World.create, hs, hg, if_true, hrl] at h
          rw [Except.ok.injEq, Prod.mk.injEq] at h
          rw [← h.2]
          exact worldInv_cons
            (compsActive_mono (fun x => hsMem_hsInsert_mono) htop) hr2
        | cons i tl =>
          simp only [World.create, hs, hg, if_true, hrl] at h
          rw [Except.ok.injEq, Prod.mk.injEq] at h
          rw [← h.2]
          exact worldInv_cons
            (compsActive_mono (fun x => hsMem_hsInsert_mono) htop) hr2
      · simp [World.create, hs, hg] at h
  · intro tid w1 h
    cases hs : w.world_state_stack with
    | nil => simp [World.register_comp, hs] at h
    | cons ws rest =>
      have htop : StoreActiveInv ws :=
        hinv ws (by rw [hs]; exact List.mem_cons_self _ _)
      have hr2 : ∀ x ∈ rest, StoreActiveInv x := by
        intro x hx
        exact hinv x (by rw [hs]; exact List.mem_cons_of_mem _ hx)
      simp only [World.register_comp, hs] at h
      rw [Except.ok.injEq] at h
      rw [← h]
      exact worldInv_cons (compsActive_register htop) hr2
  · intro e w1 h
    cases hs : w.world_state_stack with
    | nil => simp [World.remove, hs] at h
    | cons ws rest =>
      have htop : StoreActiveInv ws :=
        hinv ws (by rw [hs]; exact List.mem_cons_self _ _)
      have hr2 : ∀ x ∈ rest, StoreActiveInv x := by
        intro x hx
        exact hinv x (by rw [hs]; exact List.mem_cons_of_mem _ hx)
      by_cases hm : hsMem ws.active e
      · simp only [World.remove, hs, hm, if_true] at h
        rw [Except.ok.injEq] at h
        rw [← h]
        exact worldInv_cons (compsActive_remove htop) hr2
      · have hm2 : hsMem ws.active e = false := by
          cases h2 : hsMem ws.active e
          · rfl
          · exact absurd h2 hm
        simp only [World.remove, hs, hm2, Bool.false_eq_true, if_false] at h
        rw [Except.ok.injEq] at h
        rw [← h]
        exact hinv
  · intro w1 h
    simp only [switch_state] at h
    cases hp : pop_state w with
    | error err => rw [hp] at h; cases h
    | ok w2 =>
      rw [hp] at h
      rw [Except.ok.injEq] at h
      rw [← h]
      exact hpush w2 (hpop w2 hp)
  · intro tid f w1 h
    cases hs : w.world_state_stack with
    | nil => simp [World.get_comp_mut, hs] at h
    | cons ws rest =>
      have htop : StoreActiveInv ws :=
        hinv ws (by rw [hs]; exact List.mem_cons_self _ _)
      have hr2 : ∀ x ∈ rest, StoreActiveInv x := by
        intro x hx
        exact hinv x (by rw [hs]; exact List.mem_cons_of_mem _ hx)
      cases hlk : compsLookup tid ws.components with
      | none => simp [World.get_comp_mut, hs, hlk] at h
      | some s =>
        simp only [World.get_comp_mut, hs, hlk] at h
        rw [Except.ok.injEq] at h
        rw [← h]
        exact worldInv_cons (compsActive_mapVals htop) hr2
  · intro tid e v w1 ws rest hs hact h
    have htop : StoreActiveInv ws :=
      hinv ws (by rw [hs]; exact List.mem_cons_self _ _)
    have hr2 : ∀ x ∈ rest, StoreActiveInv x := by
      intro x hx
      exact hinv x (by rw [hs]; exact List.mem_cons_of_mem _ hx)
    cases hlk : compsLookup tid ws.components with
    | none => simp [World.add_comp, hs, hlk] at h
    | some s =>
      simp only [World.add_comp, hs, hlk] at h
      rw [Except.ok.injEq] at h
      rw [← h]
      exact worldInv_cons (compsActive_insertStore htop hact) hr2

/-- Witness for `c3_store_active_preservation`: in a World whose single
WorldState has active entity 0 carrying value 5, removing entity 0 yields a
state that still satisfies the invariant (the store entry went away with the
entity). -/
theorem c3_store_active_preservation_witness :
    WorldStoreInv (⟨[⟨1, [0], [], [(0, ⟨[]⟩)]⟩]⟩ : World Nat) :=
  (c3_store_active_preservation
      (⟨[⟨1, [], [⟨0⟩], [(0, ⟨[(⟨0⟩, 5)]⟩)]⟩]⟩ : World Nat) (by decide)).2.2.1
    ⟨0⟩ ⟨[⟨1, [0], [], [(0, ⟨[]⟩)]⟩]⟩ (by decide)
